import Mathlib

/-!
# Module federation demo: host and remote

A verification development over the three source files of the repository:

* `host/webpack.config.js` and `remote/webpack.config.js`, two webpack
  configuration objects, embedded as the records `Host.config` and
  `Remote.config`;
* `host/src/App.jsx`, a React element tree, embedded as `Host.App`.

The configuration objects are plain data.  `__dirname` is a value supplied by
Node at load time, so each configuration is a function of it.  Paths are kept
as lists of segments.
-/

namespace ModuleFederation

/-! ## Configuration data model -/

/-- A directory path, as its list of segments. -/
abbrev Path := List String

/-- Node's `path.join(dir, segment)` for a single plain segment: the segment
is appended below `dir`. -/
def path.join (dir : Path) (segment : String) : Path :=
  dir ++ [segment]

/-- The `static` entry of `devServer`. -/
structure StaticOptions where
  directory : Path
  deriving DecidableEq, Repr

/-- The `devServer` entry of a webpack configuration. -/
structure DevServer where
  port : Nat
  static : StaticOptions
  hot : Bool
  deriving DecidableEq, Repr

/-- One record of the `shared` map of `ModuleFederationPlugin`. -/
structure SharedConfig where
  singleton : Bool
  eager : Bool
  requiredVersion : String
  deriving DecidableEq, Repr

/-- The options object passed to `new ModuleFederationPlugin({...})`.  Object
literals are association lists in source order; an option the source leaves
out is `none` (for `filename`) or the empty map. -/
structure ModuleFederationOptions where
  name : String
  filename : Option String
  remotes : List (String × String)
  exposes : List (String × String)
  shared : List (String × SharedConfig)
  deriving DecidableEq, Repr

/-- The part of `module.exports` the development is about. -/
structure WebpackConfig where
  entry : String
  mode : String
  devServer : DevServer
  federation : ModuleFederationOptions
  deriving DecidableEq, Repr

/-- The keys of an object literal, in source order. -/
def keys {α : Type} (m : List (String × α)) : List String :=
  m.map Prod.fst

namespace Host

/-- The `shared` map of `host/webpack.config.js`. -/
def shared : List (String × SharedConfig) :=
  [ ("react", { singleton := true, eager := true, requiredVersion := "^18.2.0" }),
    ("react-dom", { singleton := true, eager := true, requiredVersion := "^18.2.0" }) ]

/-- The `module.exports` of `host/webpack.config.js`. -/
def config (dirname : Path) : WebpackConfig :=
  { entry := "./src/index.js"
    mode := "development"
    devServer :=
      { port := 3000
        static := { directory := path.join dirname "public" }
        hot := true }
    federation :=
      { name := "host"
        filename := none
        remotes := [("remote", "remote@http://localhost:3001/remoteEntry.js")]
        exposes := []
        shared := shared } }

end Host

namespace Remote

/-- The `shared` map of `remote/webpack.config.js`. -/
def shared : List (String × SharedConfig) :=
  [ ("react", { singleton := true, eager := true, requiredVersion := "^18.2.0" }),
    ("react-dom", { singleton := true, eager := true, requiredVersion := "^18.2.0" }) ]

/-- The `module.exports` of `remote/webpack.config.js`. -/
def config (dirname : Path) : WebpackConfig :=
  { entry := "./src/index.js"
    mode := "development"
    devServer :=
      { port := 3001
        static := { directory := path.join dirname "public" }
        hot := true }
    federation :=
      { name := "remote"
        filename := some "remoteEntry.js"
        remotes := []
        exposes := [("./Button", "./src/Button.jsx")]
        shared := shared } }

end Remote

/-! ## Element trees and rendering -/

/-- A React element, as far as `App.jsx` and the specification use the
element language: text, host elements such as `<div>` and `<h2>`,
`<Suspense fallback=...>`, an element whose type is
`React.lazy(() => import(specifier))`, and an error boundary.  The source has
no error boundary; the constructor is there so that its absence can be
stated. -/
inductive Element where
  | text (value : String)
  | host (tag : String) (children : List Element)
  | suspense (fallback : Option Element) (children : List Element)
  | lazyComponent (specifier : String)
  | errorBoundary (fallback : Element) (children : List Element)
  deriving Repr

/-- A rendered node.  The user interface of a loaded remote module is not
part of the host; it is kept as the leaf `remote specifier`. -/
inductive Node where
  | text (value : String)
  | host (tag : String) (children : List Node)
  | remote (specifier : String)
  deriving Repr

mutual
/-- Decidable equality of rendered nodes. -/
def Node.decEq : (a b : Node) → Decidable (a = b)
  | .text v, .text w =>
    if h : v = w then isTrue (by rw [h]) else isFalse (fun e => h (Node.text.inj e))
  | .text _, .host _ _ => isFalse (fun e => Node.noConfusion e)
  | .text _, .remote _ => isFalse (fun e => Node.noConfusion e)
  | .host _ _, .text _ => isFalse (fun e => Node.noConfusion e)
  | .host t cs, .host u ds =>
    if h : t = u then
      match Node.decEqList cs ds with
      | isTrue hc => isTrue (by rw [h, hc])
      | isFalse hc => isFalse (fun e => hc (Node.host.inj e).2)
    else isFalse (fun e => h (Node.host.inj e).1)
  | .host _ _, .remote _ => isFalse (fun e => Node.noConfusion e)
  | .remote _, .text _ => isFalse (fun e => Node.noConfusion e)
  | .remote _, .host _ _ => isFalse (fun e => Node.noConfusion e)
  | .remote s, .remote r =>
    if h : s = r then isTrue (by rw [h]) else isFalse (fun e => h (Node.remote.inj e))
/-- Decidable equality of lists of rendered nodes. -/
def Node.decEqList : (as bs : List Node) → Decidable (as = bs)
  | [], [] => isTrue rfl
  | [], _ :: _ => isFalse (fun e => List.noConfusion e)
  | _ :: _, [] => isFalse (fun e => List.noConfusion e)
  | a :: as, b :: bs =>
    match Node.decEq a b with
    | isTrue h =>
      match Node.decEqList as bs with
      | isTrue hs => isTrue (by rw [h, hs])
      | isFalse hs => isFalse (fun e => hs (List.cons.inj e).2)
    | isFalse h => isFalse (fun e => h (List.cons.inj e).1)
end

instance : DecidableEq Node := Node.decEq

mutual
/-- Every subtree of a rendered node, the node itself first. -/
def Node.subtrees : Node → List Node
  | .text v => [.text v]
  | .host t cs => .host t cs :: Node.subtreesAll cs
  | .remote s => [.remote s]
/-- Every subtree of a list of rendered nodes. -/
def Node.subtreesAll : List Node → List Node
  | [] => []
  | c :: cs => Node.subtrees c ++ Node.subtreesAll cs
end

/-- The state of the import behind a lazy component: the promise is pending,
or it has settled, resolved or failed with an error. -/
inductive LoadState where
  | pending
  | resolved
  | failed (error : String)
  deriving DecidableEq, Repr

/-- Modelled from the spec: a promise settles at most once, so a pending load
may step to any state and a settled load stays as it is (there is no step
from resolved or failed back to pending).  The promise machinery is part of
the JavaScript runtime, not of `src/`. -/
def LoadState.Step (s t : LoadState) : Prop :=
  s = .pending ∨ t = s

instance (s t : LoadState) : Decidable (LoadState.Step s t) :=
  inferInstanceAs (Decidable (s = .pending ∨ t = s))

/-- Each state of the list follows from the one before by `LoadState.Step`. -/
def LoadState.Steps : List LoadState → Prop
  | [] => True
  | [_] => True
  | s :: t :: rest => LoadState.Step s t ∧ LoadState.Steps (t :: rest)

/-- Decides `LoadState.Steps`. -/
def LoadState.decideSteps : (tr : List LoadState) → Decidable (LoadState.Steps tr)
  | [] => isTrue trivial
  | [_] => isTrue trivial
  | s :: t :: rest =>
    match (inferInstance : Decidable (LoadState.Step s t)), LoadState.decideSteps (t :: rest) with
    | isTrue h, isTrue hs => isTrue ⟨h, hs⟩
    | isFalse h, _ => isFalse (fun c => h c.1)
    | _, isFalse hs => isFalse (fun c => hs c.2)

instance (tr : List LoadState) : Decidable (LoadState.Steps tr) :=
  LoadState.decideSteps tr

/-- What rendering an element comes to: nodes, a suspension on a pending load,
or an error thrown during render. -/
inductive Outcome where
  | done (nodes : List Node)
  | suspended
  | thrown (error : String)
  deriving DecidableEq, Repr

mutual
/-- Modelled from the spec: the React runtime is not in `src/`; its treatment
of the element language follows section 4.2 of the specification.  A lazy
component suspends while its load is pending, renders the loaded component
once resolved and throws the load error once failed.  A `Suspense` boundary
renders its fallback while something among its children is suspended and its
children otherwise; it does not catch errors.  An error boundary renders its
fallback when something among its children throws.  Whatever a boundary does
not handle passes to the enclosing element. -/
def render (load : String → LoadState) : Element → Outcome
  | .text v => .done [.text v]
  | .host tag cs =>
    match renderAll load cs with
    | .done ns => .done [.host tag ns]
    | o => o
  | .suspense none cs =>
    match renderAll load cs with
    | .suspended => .done []
    | o => o
  | .suspense (some fb) cs =>
    match renderAll load cs with
    | .suspended => render load fb
    | o => o
  | .lazyComponent s =>
    match load s with
    | .pending => .suspended
    | .resolved => .done [.remote s]
    | .failed e => .thrown e
  | .errorBoundary fb cs =>
    match renderAll load cs with
    | .thrown _ => render load fb
    | o => o
/-- Modelled from the spec: the children of an element are rendered in
order, giving the nodes of all of them, or the first suspension or error
met. -/
def renderAll (load : String → LoadState) : List Element → Outcome
  | [] => .done []
  | c :: cs =>
    match render load c with
    | .done ns =>
      match renderAll load cs with
      | .done ms => .done (ns ++ ms)
      | o => o
    | o => o
end

/-- The nodes on screen after a render: those of a completed render, and none
when the render suspended or threw out of the root. -/
def Outcome.nodes : Outcome → List Node
  | .done ns => ns
  | _ => []

/-- The error a render surfaces, if it threw one. -/
def Outcome.error : Outcome → Option String
  | .thrown e => some e
  | _ => none

/-- Whether the node `target` is on screen after a render. -/
def Outcome.Shows (o : Outcome) (target : Node) : Prop :=
  target ∈ Node.subtreesAll o.nodes

instance (o : Outcome) (target : Node) : Decidable (o.Shows target) :=
  inferInstanceAs (Decidable (target ∈ Node.subtreesAll o.nodes))

namespace Host

/-- The module specifier of the dynamic import in `App.jsx`. -/
def remoteButtonSpecifier : String := "remote/Button"

/-- From `App.jsx`: `const RemoteButton = React.lazy(() => import("remote/Button"))`,
used as the element `<RemoteButton />`. -/
def RemoteButton : Element :=
  .lazyComponent remoteButtonSpecifier

/-- The element `<h2>Host App</h2>` of `App.jsx`. -/
def heading : Element :=
  .host "h2" [.text "Host App"]

/-- The `fallback` element of the `Suspense` in `App.jsx`. -/
def fallback : Element :=
  .host "div" [.text "加载远程组件中..."]

/-- The `Suspense` element of `App.jsx`. -/
def boundary : Element :=
  .suspense (some fallback) [RemoteButton]

/-- From `App.jsx`: the element tree `App` returns. -/
def App : Element :=
  .host "div" [heading, boundary]

/-- The render of `App` when the load of the remote module is in state `st`. -/
def renderApp (st : LoadState) : Outcome :=
  render (fun _ => st) App

/-- The rendered heading. -/
def headingNode : Node :=
  .host "h2" [.text "Host App"]

/-- The rendered fallback. -/
def fallbackNode : Node :=
  .host "div" [.text "加载远程组件中..."]

/-- The rendered remote component. -/
def buttonNode : Node :=
  .remote remoteButtonSpecifier

end Host

/-! ## Enclosing elements -/

/-- Whether an element is a lazy component importing `specifier`. -/
def Element.isLazy (specifier : String) : Element → Bool
  | .lazyComponent s => s == specifier
  | _ => false

/-- Whether an element is a host element with tag `tag`. -/
def Element.isHost (tag : String) : Element → Bool
  | .host t _ => t == tag
  | _ => false

/-- Whether an element is a `Suspense` boundary. -/
def Element.isSuspense : Element → Bool
  | .suspense _ _ => true
  | _ => false

/-- Whether an element is a `Suspense` boundary that carries a fallback. -/
def Element.hasFallback : Element → Bool
  | .suspense (some _) _ => true
  | _ => false

/-- Whether an element is an error boundary. -/
def Element.isErrorBoundary : Element → Bool
  | .errorBoundary _ _ => true
  | _ => false

mutual
/-- For each occurrence of an element satisfying `p`, the chain of elements
that enclose it, outermost first.  A boundary encloses its children; its
fallback is rendered in its place and is enclosed by what encloses the
boundary. -/
def Element.enclosures (p : Element → Bool) : Element → List (List Element)
  | .text v => if p (.text v) then [[]] else []
  | .host t cs =>
    (if p (.host t cs) then [[]] else [])
      ++ (Element.enclosuresAll p cs).map (fun chain => .host t cs :: chain)
  | .suspense none cs =>
    (if p (.suspense none cs) then [[]] else [])
      ++ (Element.enclosuresAll p cs).map (fun chain => .suspense none cs :: chain)
  | .suspense (some fb) cs =>
    (if p (.suspense (some fb) cs) then [[]] else [])
      ++ (Element.enclosuresAll p cs).map (fun chain => .suspense (some fb) cs :: chain)
      ++ Element.enclosures p fb
  | .lazyComponent s => if p (.lazyComponent s) then [[]] else []
  | .errorBoundary fb cs =>
    (if p (.errorBoundary fb cs) then [[]] else [])
      ++ (Element.enclosuresAll p cs).map (fun chain => .errorBoundary fb cs :: chain)
      ++ Element.enclosures p fb
/-- The chains of `Element.enclosures` for each element of a list. -/
def Element.enclosuresAll (p : Element → Bool) : List Element → List (List Element)
  | [] => []
  | c :: cs => Element.enclosures p c ++ Element.enclosuresAll p cs
end

/-! ## Runs of the load -/

/-- A run of the load of the remote module: it starts pending and each state
follows from the one before by `LoadState.Step`. -/
def IsRun (tr : List LoadState) : Prop :=
  tr.head? = some .pending ∧ LoadState.Steps tr

instance (tr : List LoadState) : Decidable (IsRun tr) :=
  inferInstanceAs (Decidable (tr.head? = some .pending ∧ LoadState.Steps tr))

/-! ## Entry descriptor -/

/-- A loaded module, identified by the source file it was built from. -/
structure Module where
  source : String
  deriving DecidableEq, Repr

/-- A loader: invoked, it returns the module. -/
abbrev Loader := Unit → Module

/-- Modelled from the spec: the entry descriptor, which the build writes to
`remoteEntry.js` and is not in `src/`.  Section 3: a manifest mapping exposed
module names to loader functions. -/
abbrev EntryDescriptor := List (String × Loader)

/-- Modelled from the spec: the descriptor a build publishes for an `exposes`
map, one loader per exposed name. -/
def entryDescriptor (exposes : List (String × String)) : EntryDescriptor :=
  exposes.map (fun p => (p.1, fun _ => { source := p.2 }))

/-- The failure of `resolve`. -/
inductive ResolveError where
  | unknownModule (moduleName : String)
  deriving DecidableEq, Repr

/-- Modelled from the spec: the operation `resolve(moduleName)` of section 4.1.
It returns the loader of an exposed module and fails with a
descriptor-resolution error on an unknown name. -/
def resolve (d : EntryDescriptor) (moduleName : String) : Except ResolveError Loader :=
  match d.lookup moduleName with
  | some l => .ok l
  | none => .error (.unknownModule moduleName)

/-- The operation `resolve` of the remote provider. -/
def Remote.resolve (dirname : Path) (moduleName : String) : Except ResolveError Loader :=
  ModuleFederation.resolve (entryDescriptor (Remote.config dirname).federation.exposes) moduleName

/-! ## Module specifiers and remote references -/

/-- Splits a list of characters at the first occurrence of `sep`. -/
def splitFirst (sep : Char) : List Char → Option (List Char × List Char)
  | [] => none
  | c :: cs =>
    if c = sep then some ([], cs)
    else (splitFirst sep cs).map (fun p => (c :: p.1, p.2))

/-- Splits a list of characters at the last occurrence of `sep`. -/
def splitLast (sep : Char) (cs : List Char) : Option (List Char × List Char) :=
  (splitFirst sep cs.reverse).map (fun p => (p.2.reverse, p.1.reverse))

/-- Reads a non-empty list of decimal digits. -/
def digitsToNat (cs : List Char) : Option Nat :=
  if cs = [] then none
  else
    cs.foldl
      (fun acc c =>
        match acc with
        | some n => if c.isDigit then some (10 * n + (c.toNat - '0'.toNat)) else none
        | none => none)
      (some 0)

/-- Modelled from the spec: a module specifier such as `remote/Button` is a
symbolic remote name and a module path, separated by the first `/`
(section 6).  The resolution of specifiers is done by the bundler, not by
`src/`. -/
def splitSpecifier (specifier : String) : Option (String × String) :=
  (splitFirst '/' specifier.data).map (fun p => (String.mk p.1, String.mk p.2))

/-- The key under which a module path is exposed: `Button` is exposed as
`./Button`. -/
def exposedKey (modulePath : String) : String :=
  "./" ++ modulePath

/-- The remote reference of section 3: name, origin URL and entry filename. -/
structure RemoteReference where
  name : String
  origin : String
  entryFilename : String
  deriving DecidableEq, Repr

/-- Modelled from the spec: a `remotes` value reads as name, `@`, origin, `/`,
entry filename: the name ends at the first `@` and the entry filename starts
after the last `/`.  The reading of `remotes` values is done by the bundler,
not by `src/`. -/
def parseRemote (value : String) : Option RemoteReference :=
  match splitFirst '@' value.data with
  | none => none
  | some (name, url) =>
    match splitLast '/' url with
    | none => none
    | some (origin, entry) =>
      some { name := String.mk name, origin := String.mk origin, entryFilename := String.mk entry }

/-- The port of an origin URL: the decimal number after its last `:`. -/
def originPort (origin : String) : Option Nat :=
  match splitLast ':' origin.data with
  | none => none
  | some (_, port) => digitsToNat port

/-- The remote reference the host configuration declares under `remote`. -/
def Host.remoteReference (dirname : Path) : Option RemoteReference :=
  ((Host.config dirname).federation.remotes.lookup "remote").bind parseRemote

/-! ## Shared dependency broker -/

/-- A loaded instance of a shared package: the package, the version
requirement it was loaded for, and the participant that loaded it. -/
structure Instance where
  package : String
  version : String
  provider : String
  deriving DecidableEq, Repr

/-- Modelled from the spec: the registry of section 9, keyed by dependency
name, populated at most once per key and read thereafter.  The broker is part
of the bundler runtime, not of `src/`. -/
abbrev Registry := List (String × Instance)

/-- The failure of the broker. -/
inductive BrokerError where
  | versionConflict (package : String) (loaded : String) (required : String)
  deriving DecidableEq, Repr

/-- Modelled from the spec: one participant asks for a singleton package
(sections 4.3, 5 and 9).  The first caller wins and its instance is entered;
a later caller observes that same instance, and the broker fails with a
version conflict when the loaded version is not compatible with the
requirement of the later caller.  The compatibility of two version
requirements is a parameter. -/
def Registry.acquire (compatible : String → String → Bool) (r : Registry)
    (participant : String) (package : String) (c : SharedConfig) :
    Except BrokerError (Registry × Instance) :=
  match r.lookup package with
  | some i =>
    if compatible i.version c.requiredVersion then .ok (r, i)
    else .error (.versionConflict package i.version c.requiredVersion)
  | none =>
    .ok (r ++ [(package, { package := package, version := c.requiredVersion,
                           provider := participant })],
         { package := package, version := c.requiredVersion, provider := participant })

/-- Modelled from the spec: a participant asks for each package it declares
singleton, in the order of its `shared` map; the result is the registry and
the instance the participant is bound to for each package. -/
def Registry.acquireAll (compatible : String → String → Bool) (participant : String) :
    Registry → List (String × SharedConfig) →
    Except BrokerError (Registry × List (String × Instance))
  | r, [] => .ok (r, [])
  | r, (package, c) :: rest =>
    if c.singleton then
      match r.acquire compatible participant package c with
      | .error e => .error e
      | .ok (r1, i) =>
        match Registry.acquireAll compatible participant r1 rest with
        | .error e => .error e
        | .ok (r2, bound) => .ok (r2, (package, i) :: bound)
    else Registry.acquireAll compatible participant r rest

/-- The state of the broker: the registry, and for each participant that has
started the instances it is bound to. -/
structure Broker where
  registry : Registry
  bindings : List (String × List (String × Instance))
  deriving DecidableEq, Repr

/-- Modelled from the spec: the participants start one after the other, each
asking the broker for its singleton packages. -/
def Broker.start (compatible : String → String → Bool) :
    Broker → List ModuleFederationOptions → Except BrokerError Broker
  | b, [] => .ok b
  | b, p :: ps =>
    match Registry.acquireAll compatible p.name b.registry p.shared with
    | .error e => .error e
    | .ok (r, bound) =>
      Broker.start compatible { registry := r, bindings := b.bindings ++ [(p.name, bound)] } ps

/-- The instance a participant is bound to for a package, once it has
started. -/
def Broker.boundTo (b : Broker) (participant : String) (package : String) : Option Instance :=
  (b.bindings.lookup participant).bind (fun bound => bound.lookup package)

/-- The instances of `package` in a registry. -/
def Registry.instancesOf (r : Registry) (package : String) : List Instance :=
  (r.filter (fun p => p.1 == package)).map Prod.snd

/-- The invariant of the broker: the registry holds one instance per key, and
every participant is bound to the instances the registry holds. -/
def Broker.Consistent (b : Broker) : Prop :=
  (keys b.registry).Nodup
  ∧ ∀ p ∈ b.bindings, ∀ q ∈ p.2, b.registry.lookup q.1 = some q.2

/-! ## Configuration: shared dependencies, ports, references -/

/-- C7: the `shared` maps of the host and of the remote have exactly the keys
`react` and `react-dom`, every record of both is singleton, eager and requires
`^18.2.0`, and the two maps are equal; so a package that both declare
singleton has the same version requirement on both sides and is eager on
both sides, and no shared package of either side is left to lazy loading. -/
theorem shared_records_agree (dh dr : Path) :
    keys (Host.config dh).federation.shared = ["react", "react-dom"]
    ∧ keys (Remote.config dr).federation.shared = ["react", "react-dom"]
    ∧ (∀ p ∈ (Host.config dh).federation.shared,
        p.2 = { singleton := true, eager := true, requiredVersion := "^18.2.0" })
    ∧ (∀ p ∈ (Remote.config dr).federation.shared,
        p.2 = { singleton := true, eager := true, requiredVersion := "^18.2.0" })
    ∧ (Host.config dh).federation.shared = (Remote.config dr).federation.shared
    ∧ (∀ package h r,
        (Host.config dh).federation.shared.lookup package = some h →
        (Remote.config dr).federation.shared.lookup package = some r →
        h.singleton = true → r.singleton = true →
        h.requiredVersion = r.requiredVersion ∧ h.eager = true ∧ r.eager = true)
    ∧ (∀ p ∈ (Host.config dh).federation.shared ++ (Remote.config dr).federation.shared,
        p.2.eager ≠ false) := by
  have hk : ∀ p ∈ Host.shared,
      p.2 = { singleton := true, eager := true, requiredVersion := "^18.2.0" } := by decide
  have hr : Remote.shared = Host.shared := by decide
  have hl : ∀ package c, Host.shared.lookup package = some c →
      c = { singleton := true, eager := true, requiredVersion := "^18.2.0" } := by
    intro package c hc
    obtain ⟨k, hm⟩ : ∃ k, (k, c) ∈ Host.shared := by
      simp only [Host.shared, List.lookup] at hc
      split at hc
      · exact ⟨"react", by simp_all [Host.shared]⟩
      · split at hc
        · exact ⟨"react-dom", by simp_all [Host.shared]⟩
        · simp at hc
    exact hk _ hm
  have hkeys : keys Host.shared = ["react", "react-dom"] := by decide
  have hkeys' : keys Remote.shared = ["react", "react-dom"] := by decide
  refine ⟨hkeys, hkeys', hk, ?_, ?_, ?_, ?_⟩
  · show ∀ p ∈ Remote.shared, _
    rw [hr]; exact hk
  · show Host.shared = Remote.shared
    exact hr.symm
  · intro package h r hh hrr _ _
    have e1 := hl package h hh
    have e2 : r = _ := hl package r (by
      have : Remote.shared.lookup package = some r := hrr
      rwa [hr] at this)
    subst e1; subst e2
    exact ⟨rfl, rfl, rfl⟩
  · show ∀ p ∈ Host.shared ++ Remote.shared, _
    decide

/-- C10: the host serves on port 3000 and the remote on port 3001, two
different ports; each serves the `public` directory below its own
configuration directory; and the port of the URL in the remote reference of
the host is the port of the remote and not the port of the host. -/
theorem dev_server_ports_and_directories (dh dr : Path) :
    (Host.config dh).devServer.port = 3000
    ∧ (Remote.config dr).devServer.port = 3001
    ∧ (Host.config dh).devServer.port ≠ (Remote.config dr).devServer.port
    ∧ (Host.config dh).devServer.static.directory = dh ++ ["public"]
    ∧ (Remote.config dr).devServer.static.directory = dr ++ ["public"]
    ∧ ((Host.remoteReference dh).bind (fun ref => originPort ref.origin)
        = some (Remote.config dr).devServer.port)
    ∧ ((Host.remoteReference dh).bind (fun ref => originPort ref.origin)
        ≠ some (Host.config dh).devServer.port) := by
  have hne : (3000 : Nat) ≠ 3001 := by decide
  refine ⟨rfl, rfl, hne, rfl, rfl, ?_, ?_⟩
  · show (Host.remoteReference []).bind (fun ref => originPort ref.origin) = some 3001
    decide
  · show (Host.remoteReference []).bind (fun ref => originPort ref.origin) ≠ some 3000
    decide

/-- C5: the specifier `remote/Button` that `App.jsx` imports splits at its
first `/` into the name `remote`, a key of the `remotes` map of the host, and
the module path `Button`, whose exposed form `./Button` is a key of the
`exposes` map of the remote. -/
theorem requested_module_is_exposed (dh dr : Path) :
    Host.RemoteButton = .lazyComponent "remote/Button"
    ∧ splitSpecifier "remote/Button" = some ("remote", "Button")
    ∧ "remote" ∈ keys (Host.config dh).federation.remotes
    ∧ exposedKey "Button" = "./Button"
    ∧ exposedKey "Button" ∈ keys (Remote.config dr).federation.exposes := by
  refine ⟨rfl, by decide, ?_, by decide, ?_⟩
  · show "remote" ∈ keys [("remote", "remote@http://localhost:3001/remoteEntry.js")]
    decide
  · show exposedKey "Button" ∈ keys [("./Button", "./src/Button.jsx")]
    decide

/-- C6: the `remotes` value of the host parses to the name `remote`, the
origin `http://localhost:3001` and the entry filename `remoteEntry.js`; the
name is the `name` of the remote configuration, the port of the origin is its
`devServer.port`, and the entry filename is its `filename`. -/
theorem remote_reference_points_to_remote (dh dr : Path) :
    (Host.config dh).federation.remotes.lookup "remote"
      = some "remote@http://localhost:3001/remoteEntry.js"
    ∧ parseRemote "remote@http://localhost:3001/remoteEntry.js"
      = some { name := "remote", origin := "http://localhost:3001",
               entryFilename := "remoteEntry.js" }
    ∧ (Host.remoteReference dh).map (fun ref => ref.name)
      = some (Remote.config dr).federation.name
    ∧ (Host.remoteReference dh).bind (fun ref => originPort ref.origin)
      = some (Remote.config dr).devServer.port
    ∧ (Host.remoteReference dh).map (fun ref => ref.entryFilename)
      = (Remote.config dr).federation.filename := by
  refine ⟨?_, by decide, ?_, ?_, ?_⟩
  · show List.lookup "remote" [("remote", "remote@http://localhost:3001/remoteEntry.js")] = _
    decide
  · show (Host.remoteReference []).map (fun ref => ref.name) = some "remote"
    decide
  · show (Host.remoteReference []).bind (fun ref => originPort ref.origin) = some 3001
    decide
  · show (Host.remoteReference []).map (fun ref => ref.entryFilename) = some "remoteEntry.js"
    decide

/-! ## The entry descriptor of the remote -/

/-- C4: over the `exposes` map of the remote, `resolve` returns a loader
exactly for the name `./Button`, and that loader returns the module built
from `./src/Button.jsx`; for every other name it fails with the
descriptor-resolution error for that name and returns no module. -/
theorem resolve_exposes_only_button (dr : Path) (moduleName : String) :
    (moduleName = "./Button"
      ∧ ∃ l : Loader, Remote.resolve dr moduleName = .ok l
          ∧ l () = { source := "./src/Button.jsx" })
    ∨ (moduleName ≠ "./Button"
      ∧ Remote.resolve dr moduleName = .error (.unknownModule moduleName)
      ∧ ∀ l : Loader, Remote.resolve dr moduleName ≠ .ok l) := by
  by_cases h : moduleName = "./Button"
  · subst h
    exact Or.inl ⟨rfl, fun _ => { source := "./src/Button.jsx" }, rfl, rfl⟩
  · have hb : (moduleName == "./Button") = false := by simpa using h
    have hr : Remote.resolve dr moduleName = .error (.unknownModule moduleName) := by
      simp [Remote.resolve, resolve, entryDescriptor, Remote.config, List.lookup, hb]
    refine Or.inr ⟨h, hr, ?_⟩
    intro l hl
    rw [hr] at hl
    cases hl

/-! ## The element tree of `App` -/

/-- The render of `App` depends on the load state of `remote/Button` only. -/
theorem render_App (load : String → LoadState) :
    render load Host.App = Host.renderApp (load "remote/Button") := by
  simp only [Host.renderApp, Host.App, Host.heading, Host.boundary, Host.fallback,
    Host.RemoteButton, Host.remoteButtonSpecifier, render, renderAll]

/-- C1: the element `App` returns is a root `div` with the `h2` heading
`Host App` as first child and the `Suspense` boundary as second child, so the
heading is outside the boundary; in the pending state `App` renders the `div`
with the heading and the fallback `div`, and in the resolved state the `div`
with the heading and the remote Button component. -/
theorem app_renders_heading_then_button :
    Host.App = .host "div"
      [ .host "h2" [.text "Host App"],
        .suspense (some (.host "div" [.text "加载远程组件中..."]))
          [.lazyComponent "remote/Button"] ]
    ∧ Element.enclosures (Element.isHost "h2") Host.App = [[Host.App]]
    ∧ Host.renderApp .pending
      = .done [.host "div" [ .host "h2" [.text "Host App"],
                             .host "div" [.text "加载远程组件中..."] ]]
    ∧ Host.renderApp .resolved
      = .done [.host "div" [ .host "h2" [.text "Host App"], .remote "remote/Button" ]]
    ∧ (∀ st : LoadState, st = .pending ∨ st = .resolved →
        ∃ second, Host.renderApp st
          = .done [.host "div" [.host "h2" [.text "Host App"], second]]) := by
  refine ⟨rfl, rfl, rfl, rfl, ?_⟩
  rintro st (h | h) <;> subst h
  · exact ⟨_, rfl⟩
  · exact ⟨_, rfl⟩

/-- C8: in the element tree of `App` the lazy `RemoteButton` occurs once,
enclosed by the root `div` and one `Suspense` boundary, which carries a
fallback; none of the enclosing elements is an error boundary; and in the
failed state the render of `App` throws the load error out of its root. -/
theorem remote_button_has_no_error_boundary :
    Element.enclosures (Element.isLazy "remote/Button") Host.App
      = [[Host.App, Host.boundary]]
    ∧ [Host.App, Host.boundary].filter Element.isSuspense = [Host.boundary]
    ∧ Host.boundary.hasFallback = true
    ∧ [Host.App, Host.boundary].filter Element.isErrorBoundary = []
    ∧ (∀ error : String, Host.renderApp (.failed error) = .thrown error)
    ∧ (∀ error : String, (Host.renderApp (.failed error)).nodes = []) := by
  exact ⟨rfl, rfl, rfl, rfl, fun _ => rfl, fun _ => rfl⟩

/-! ## Runs of the load and what they show -/

/-- The chains of `LoadState.Steps` are the chains of `List.Chain'` for
`LoadState.Step`. -/
theorem steps_iff_chain' :
    ∀ tr : List LoadState, LoadState.Steps tr ↔ List.Chain' LoadState.Step tr := by
  intro tr
  induction tr with
  | nil => exact ⟨fun _ => List.chain'_nil, fun _ => trivial⟩
  | cons s rest ih =>
    cases rest with
    | nil => exact ⟨fun _ => List.chain'_singleton s, fun _ => trivial⟩
    | cons t rest =>
      rw [List.chain'_cons]
      exact ⟨fun h => ⟨h.1, ih.mp h.2⟩, fun h => ⟨h.1, ih.mpr h.2⟩⟩

/-- A settled load stays as it is for the rest of a run. -/
theorem settled_stays {t : LoadState} (ht : t ≠ .pending) :
    ∀ tr : List LoadState, LoadState.Steps (t :: tr) → ∀ s ∈ tr, s = t := by
  intro tr
  induction tr with
  | nil => intro _ s hs; cases hs
  | cons a rest ih =>
    intro hc s hs
    obtain ⟨hstep, hrest⟩ : LoadState.Step t a ∧ LoadState.Steps (a :: rest) := hc
    have ha : a = t := by
      rcases hstep with h | h
      · exact absurd h ht
      · exact h
    subst ha
    rcases List.mem_cons.mp hs with h | h
    · exact h
    · exact ih hrest s h

/-- The tail of a chain of steps is a chain of steps. -/
theorem steps_tail (s : LoadState) :
    ∀ tr : List LoadState, LoadState.Steps (s :: tr) → LoadState.Steps tr := by
  intro tr h
  cases tr with
  | nil => trivial
  | cons a rest => exact h.2

/-- A chain of steps that reaches a settled state is a block of pending
states followed by a non-empty block of that settled state. -/
theorem chain_shape {t : LoadState} (ht : t ≠ .pending) :
    ∀ tr : List LoadState, LoadState.Steps tr → t ∈ tr →
      ∃ k m, tr = List.replicate k .pending ++ List.replicate (m + 1) t := by
  intro tr
  induction tr with
  | nil => intro _ h; cases h
  | cons s rest ih =>
    intro hc hmem
    by_cases hs : s = .pending
    · subst hs
      have hin : t ∈ rest := by
        rcases List.mem_cons.mp hmem with h | h
        · exact absurd h ht
        · exact h
      obtain ⟨k, m, hkm⟩ := ih (steps_tail _ rest hc) hin
      exact ⟨k + 1, m, by rw [hkm]; rfl⟩
    · have hall := settled_stays hs rest hc
      have hst : t = s := by
        rcases List.mem_cons.mp hmem with h | h
        · exact h
        · exact hall t h
      subst hst
      refine ⟨0, rest.length, ?_⟩
      rw [List.replicate_zero, List.nil_append, List.replicate_succ]
      congr 1
      exact List.eq_replicate_iff.mpr ⟨rfl, hall⟩

/-- In a block of `a` followed by a block of `b`, the state at an index before
the first length is `a`, and `b` from there on. -/
theorem blocks_getElem? {a b : LoadState} (k m i : Nat) (s : LoadState)
    (h : (List.replicate k a ++ List.replicate m b)[i]? = some s) :
    (i < k → s = a) ∧ (k ≤ i → s = b) := by
  constructor
  · intro hik
    rw [List.getElem?_append_left (by simpa using hik)] at h
    exact List.eq_of_mem_replicate (List.getElem?_mem h)
  · intro hki
    rw [List.getElem?_append_right (by simpa using hki)] at h
    exact List.eq_of_mem_replicate (List.getElem?_mem h)

/-- A run that reaches a settled state `t` has a first index `k` at which the
state is `t`: the states before `k` are pending, there is at least one of
them, and the states from `k` on are `t`. -/
theorem run_settles {t : LoadState} (ht : t ≠ .pending) (tr : List LoadState)
    (hrun : IsRun tr) (hmem : t ∈ tr) :
    ∃ k, 0 < k ∧ k < tr.length ∧
      ∀ i s, tr[i]? = some s → (i < k → s = .pending) ∧ (k ≤ i → s = t) := by
  obtain ⟨hhead, hchain⟩ := hrun
  obtain ⟨k, m, hkm⟩ := chain_shape ht tr hchain hmem
  subst hkm
  refine ⟨k, ?_, ?_, fun i s h => blocks_getElem? k (m + 1) i s h⟩
  · rcases k with _ | k
    · rw [List.replicate_zero, List.nil_append, List.replicate_succ, List.head?_cons] at hhead
      exact absurd (Option.some.inj hhead) ht
    · exact Nat.succ_pos k
  · simp

/-- C2: in every run of the load that reaches the resolved state there is a
first render `k` that shows the output of the remote component; it is not the
first render of the run; every render before it shows the fallback and not
the output; and every render from it on shows the output and not the
fallback. -/
theorem fallback_only_before_output (tr : List LoadState) (hrun : IsRun tr)
    (hres : LoadState.resolved ∈ tr) :
    ∃ k, 0 < k ∧ k < tr.length ∧
      ∀ i s, tr[i]? = some s →
        (i < k → (Host.renderApp s).Shows Host.fallbackNode
                  ∧ ¬ (Host.renderApp s).Shows Host.buttonNode)
        ∧ (k ≤ i → (Host.renderApp s).Shows Host.buttonNode
                  ∧ ¬ (Host.renderApp s).Shows Host.fallbackNode) := by
  obtain ⟨k, hk0, hklt, hall⟩ := run_settles (by decide) tr hrun hres
  refine ⟨k, hk0, hklt, fun i s h => ⟨fun hik => ?_, fun hki => ?_⟩⟩
  · rw [(hall i s h).1 hik]
    decide
  · rw [(hall i s h).2 hki]
    decide

/-- Witness of C2: the run pending, pending, resolved. -/
theorem fallback_only_before_output_witness :
    IsRun [.pending, .pending, .resolved]
    ∧ LoadState.resolved ∈ [LoadState.pending, .pending, .resolved]
    ∧ ∃ k, 0 < k ∧ k < [LoadState.pending, .pending, .resolved].length ∧
      ∀ i s, [LoadState.pending, .pending, .resolved][i]? = some s →
        (i < k → (Host.renderApp s).Shows Host.fallbackNode
                  ∧ ¬ (Host.renderApp s).Shows Host.buttonNode)
        ∧ (k ≤ i → (Host.renderApp s).Shows Host.buttonNode
                  ∧ ¬ (Host.renderApp s).Shows Host.fallbackNode) :=
  ⟨⟨rfl, by decide⟩, by decide,
    fallback_only_before_output [.pending, .pending, .resolved] ⟨rfl, by decide⟩ (by decide)⟩

/-- C9, as stated, fails: after the load has gone from pending to failed, the
render of `App` shows neither the fallback nor the heading; nothing is on
screen. -/
theorem failed_render_shows_no_fallback :
    IsRun [.pending, .failed "ChunkLoadError"]
    ∧ (Host.renderApp .pending).Shows Host.fallbackNode
    ∧ ¬ (Host.renderApp (.failed "ChunkLoadError")).Shows Host.fallbackNode
    ∧ ¬ (Host.renderApp (.failed "ChunkLoadError")).Shows Host.headingNode
    ∧ (Host.renderApp (.failed "ChunkLoadError")).nodes = [] := by
  refine ⟨⟨rfl, by decide⟩, by decide, by decide, by decide, rfl⟩

/-- C9, amended: in every run of the load that reaches the failed state the
load does not stay pending: there is a first render `k`, not the first of the
run, with the load failed.  The renders before it show the fallback and the
heading and surface no error.  The renders from it on throw the load error
out of the root of `App`, so the error is surfaced, and show neither the
fallback nor the heading. -/
theorem failed_load_throws_out_of_root (tr : List LoadState) (error : String)
    (hrun : IsRun tr) (hfail : LoadState.failed error ∈ tr) :
    ∃ k, 0 < k ∧ k < tr.length ∧
      ∀ i s, tr[i]? = some s →
        (i < k → s = .pending
                  ∧ (Host.renderApp s).Shows Host.fallbackNode
                  ∧ (Host.renderApp s).Shows Host.headingNode
                  ∧ (Host.renderApp s).error = none)
        ∧ (k ≤ i → s = .failed error
                  ∧ Host.renderApp s = .thrown error
                  ∧ (Host.renderApp s).error = some error
                  ∧ ¬ (Host.renderApp s).Shows Host.fallbackNode
                  ∧ ¬ (Host.renderApp s).Shows Host.headingNode) := by
  obtain ⟨k, hk0, hklt, hall⟩ :=
    run_settles (t := .failed error) (fun h => LoadState.noConfusion h) tr hrun hfail
  refine ⟨k, hk0, hklt, fun i s h => ⟨fun hik => ?_, fun hki => ?_⟩⟩
  · rw [(hall i s h).1 hik]
    exact ⟨rfl, by decide, by decide, rfl⟩
  · rw [(hall i s h).2 hki]
    refine ⟨rfl, rfl, rfl, ?_, ?_⟩
    · intro hs; cases hs
    · intro hs; cases hs

/-- Witness of C9, amended: the run pending, failed. -/
theorem failed_load_throws_out_of_root_witness :
    IsRun [.pending, .failed "ChunkLoadError"]
    ∧ LoadState.failed "ChunkLoadError" ∈ [LoadState.pending, .failed "ChunkLoadError"]
    ∧ ∃ k, 0 < k ∧ k < [LoadState.pending, .failed "ChunkLoadError"].length ∧
      ∀ i s, [LoadState.pending, .failed "ChunkLoadError"][i]? = some s →
        (i < k → s = .pending
                  ∧ (Host.renderApp s).Shows Host.fallbackNode
                  ∧ (Host.renderApp s).Shows Host.headingNode
                  ∧ (Host.renderApp s).error = none)
        ∧ (k ≤ i → s = .failed "ChunkLoadError"
                  ∧ Host.renderApp s = .thrown "ChunkLoadError"
                  ∧ (Host.renderApp s).error = some "ChunkLoadError"
                  ∧ ¬ (Host.renderApp s).Shows Host.fallbackNode
                  ∧ ¬ (Host.renderApp s).Shows Host.headingNode) :=
  ⟨⟨rfl, by decide⟩, by decide,
    failed_load_throws_out_of_root [.pending, .failed "ChunkLoadError"] "ChunkLoadError"
      ⟨rfl, by decide⟩ (by decide)⟩

/-! ## The shared dependency broker -/

/-- A successful `Registry.acquire` keeps one instance per key, returns
the instance the registry then holds for the package, and replaces no
earlier instance. -/
theorem acquire_ok {compatible : String → String → Bool} {r r' : Registry}
    {participant package : String} {c : SharedConfig} {i : Instance}
    (h : r.acquire compatible participant package c = .ok (r', i))
    (hr : (keys r).Nodup) :
    (keys r').Nodup ∧ r'.lookup package = some i
      ∧ ∀ k j, r.lookup k = some j → r'.lookup k = some j := by
  unfold Registry.acquire at h
  cases hl : r.lookup package with
  | some j =>
    rw [hl] at h
    dsimp only at h
    split at h
    · cases h
      exact ⟨hr, hl, fun _ _ hk => hk⟩
    · cases h
  | none =>
    rw [hl] at h
    cases h
    refine ⟨?_, ?_, ?_⟩
    · have hnot : package ∉ keys r := by
        intro hin
        obtain ⟨p, hp, hpk⟩ := List.mem_map.mp hin
        have := List.lookup_eq_none_iff.mp hl p hp
        simp [hpk] at this
      simp only [keys, List.map_append, List.map_cons, List.map_nil]
      exact List.Nodup.append hr (List.nodup_singleton _)
        (by
          intro a ha hb
          rw [List.mem_singleton] at hb
          subst hb
          exact hnot ha)
    · rw [List.lookup_append, hl]
      simp
    · intro k j hk
      rw [List.lookup_append, hk]
      rfl

/-- A successful `Registry.acquireAll` keeps one instance per key, binds the
participant to instances the registry holds, and replaces no instance. -/
theorem acquireAll_ok {compatible : String → String → Bool} {participant : String} :
    ∀ (sh : List (String × SharedConfig)) (r r' : Registry) (bound : List (String × Instance)),
      Registry.acquireAll compatible participant r sh = .ok (r', bound) →
      (keys r).Nodup →
      (keys r').Nodup ∧ (∀ q ∈ bound, r'.lookup q.1 = some q.2)
        ∧ ∀ k j, r.lookup k = some j → r'.lookup k = some j := by
  intro sh
  induction sh with
  | nil =>
    intro r r' bound h hr
    cases h
    exact ⟨hr, fun q hq => (by cases hq), fun _ _ hk => hk⟩
  | cons p rest ih =>
    intro r r' bound h hr
    obtain ⟨package, c⟩ := p
    rw [Registry.acquireAll] at h
    split at h
    · cases ha : r.acquire compatible participant package c with
      | error e => rw [ha] at h; cases h
      | ok res =>
        obtain ⟨r1, i⟩ := res
        rw [ha] at h
        dsimp only at h
        cases hb : Registry.acquireAll compatible participant r1 rest with
        | error e => rw [hb] at h; cases h
        | ok res2 =>
          obtain ⟨r2, bs⟩ := res2
          rw [hb] at h
          obtain ⟨h1, h2, h3⟩ := acquire_ok ha hr
          obtain ⟨k1, k2, k3⟩ := ih r1 r2 bs hb h1
          cases h
          refine ⟨k1, ?_, fun k j hk => k3 k j (h3 k j hk)⟩
          intro q hq
          rcases List.mem_cons.mp hq with hq | hq
          · subst hq
            exact k3 _ _ h2
          · exact k2 q hq
    · exact ih r r' bound h hr

/-- Starting any participants in any order keeps the broker consistent. -/
theorem start_consistent {compatible : String → String → Bool} :
    ∀ (ps : List ModuleFederationOptions) (b b' : Broker),
      b.Consistent → Broker.start compatible b ps = .ok b' → b'.Consistent := by
  intro ps
  induction ps with
  | nil =>
    intro b b' hb h
    cases h
    exact hb
  | cons p rest ih =>
    intro b b' hb h
    rw [Broker.start] at h
    cases ha : Registry.acquireAll compatible p.name b.registry p.shared with
    | error e => rw [ha] at h; cases h
    | ok res =>
      obtain ⟨r, bound⟩ := res
      rw [ha] at h
      dsimp only at h
      obtain ⟨h1, h2, h3⟩ := acquireAll_ok p.shared b.registry r bound ha hb.1
      refine ih _ b' ⟨h1, ?_⟩ h
      intro q hq
      rcases List.mem_append.mp hq with hq | hq
      · intro x hx
        exact h3 _ _ (hb.2 q hq x hx)
      · rw [List.mem_singleton] at hq
        subst hq
        exact h2

/-- Whatever participants start, in whatever order, if the broker does not
fail then two participants bound for the same package are bound to one and
the same instance. -/
theorem bound_instances_agree {compatible : String → String → Bool}
    (ps : List ModuleFederationOptions) (b : Broker)
    (h : Broker.start compatible { registry := [], bindings := [] } ps = .ok b) :
    ∀ p ∈ b.bindings, ∀ p' ∈ b.bindings, ∀ q ∈ p.2, ∀ q' ∈ p'.2,
      q.1 = q'.1 → q.2 = q'.2 := by
  have h0 : Broker.Consistent { registry := [], bindings := [] } :=
    ⟨List.nodup_nil, fun p hp => by cases hp⟩
  have hc : b.Consistent := start_consistent ps _ b h0 h
  intro p hp p' hp' q hq q' hq' hk
  have h1 := hc.2 p hp q hq
  have h2 := hc.2 p' hp' q' hq'
  rw [hk, h2] at h1
  exact (Option.some.inj h1).symm

/-- The broker after the host and then the remote have started. -/
theorem start_host_then_remote (compatible : String → String → Bool)
    (hrefl : ∀ v, compatible v v = true) (dh dr : Path) :
    Broker.start compatible { registry := [], bindings := [] }
        [(Host.config dh).federation, (Remote.config dr).federation]
      = .ok
        { registry :=
            [ ("react", { package := "react", version := "^18.2.0", provider := "host" }),
              ("react-dom",
                { package := "react-dom", version := "^18.2.0", provider := "host" }) ]
          bindings :=
            [ ("host",
                [ ("react", { package := "react", version := "^18.2.0", provider := "host" }),
                  ("react-dom",
                    { package := "react-dom", version := "^18.2.0", provider := "host" }) ]),
              ("remote",
                [ ("react", { package := "react", version := "^18.2.0", provider := "host" }),
                  ("react-dom",
                    { package := "react-dom", version := "^18.2.0", provider := "host" }) ]) ] } := by
  have h1 : ("react" == "react-dom") = false := by decide
  have h2 : ("react-dom" == "react") = false := by decide
  simp [Broker.start, Registry.acquireAll, Registry.acquire, Host.config, Remote.config,
    Host.shared, Remote.shared, List.lookup, hrefl, h1, h2]

/-- The broker after the remote and then the host have started. -/
theorem start_remote_then_host (compatible : String → String → Bool)
    (hrefl : ∀ v, compatible v v = true) (dh dr : Path) :
    Broker.start compatible { registry := [], bindings := [] }
        [(Remote.config dr).federation, (Host.config dh).federation]
      = .ok
        { registry :=
            [ ("react", { package := "react", version := "^18.2.0", provider := "remote" }),
              ("react-dom",
                { package := "react-dom", version := "^18.2.0", provider := "remote" }) ]
          bindings :=
            [ ("remote",
                [ ("react", { package := "react", version := "^18.2.0", provider := "remote" }),
                  ("react-dom",
                    { package := "react-dom", version := "^18.2.0", provider := "remote" }) ]),
              ("host",
                [ ("react", { package := "react", version := "^18.2.0", provider := "remote" }),
                  ("react-dom",
                    { package := "react-dom", version := "^18.2.0", provider := "remote" }) ]) ] } := by
  have h1 : ("react" == "react-dom") = false := by decide
  have h2 : ("react-dom" == "react") = false := by decide
  simp [Broker.start, Registry.acquireAll, Registry.acquire, Host.config, Remote.config,
    Host.shared, Remote.shared, List.lookup, hrefl, h1, h2]

/-- C3: the host and the remote both declare `react` and `react-dom` singleton
with the requirement `^18.2.0`.  Under any compatibility relation that holds
between a requirement and itself, the broker started with the two
participants in either order does not fail, its registry has exactly the keys
`react` and `react-dom`, and for each of the two packages the registry holds
exactly one instance, to which both the host and the remote are bound. -/
theorem one_instance_per_shared_package (compatible : String → String → Bool)
    (hrefl : ∀ v, compatible v v = true) (dh dr : Path) :
    (∃ b, Broker.start compatible { registry := [], bindings := [] }
            [(Host.config dh).federation, (Remote.config dr).federation] = .ok b
        ∧ keys b.registry = ["react", "react-dom"]
        ∧ ∀ package ∈ keys (Host.config dh).federation.shared,
            ∃ i, b.registry.instancesOf package = [i]
              ∧ b.boundTo "host" package = some i
              ∧ b.boundTo "remote" package = some i)
    ∧ (∃ b, Broker.start compatible { registry := [], bindings := [] }
            [(Remote.config dr).federation, (Host.config dh).federation] = .ok b
        ∧ keys b.registry = ["react", "react-dom"]
        ∧ ∀ package ∈ keys (Host.config dh).federation.shared,
            ∃ i, b.registry.instancesOf package = [i]
              ∧ b.boundTo "host" package = some i
              ∧ b.boundTo "remote" package = some i) := by
  have hkeys : ∀ package ∈ keys (Host.config dh).federation.shared,
      package = "react" ∨ package = "react-dom" := by
    intro package hp
    have hp' : package ∈ ["react", "react-dom"] := hp
    simpa using hp'
  constructor
  · refine ⟨_, start_host_then_remote compatible hrefl dh dr, by decide, ?_⟩
    intro package hp
    rcases hkeys package hp with h | h <;> subst h
    · exact ⟨_, rfl, rfl, rfl⟩
    · exact ⟨_, rfl, rfl, rfl⟩
  · refine ⟨_, start_remote_then_host compatible hrefl dh dr, by decide, ?_⟩
    intro package hp
    rcases hkeys package hp with h | h <;> subst h
    · exact ⟨_, rfl, rfl, rfl⟩
    · exact ⟨_, rfl, rfl, rfl⟩

/-- Witness of C3: string equality as the compatibility relation. -/
theorem one_instance_per_shared_package_witness :
    (∀ v : String, (fun a b : String => a == b) v v = true)
    ∧ (∃ b, Broker.start (fun a b : String => a == b) { registry := [], bindings := [] }
            [(Host.config []).federation, (Remote.config []).federation] = .ok b
        ∧ keys b.registry = ["react", "react-dom"]
        ∧ ∀ package ∈ keys (Host.config []).federation.shared,
            ∃ i, b.registry.instancesOf package = [i]
              ∧ b.boundTo "host" package = some i
              ∧ b.boundTo "remote" package = some i)
    ∧ (∃ b, Broker.start (fun a b : String => a == b) { registry := [], bindings := [] }
            [(Remote.config []).federation, (Host.config []).federation] = .ok b
        ∧ keys b.registry = ["react", "react-dom"]
        ∧ ∀ package ∈ keys (Host.config []).federation.shared,
            ∃ i, b.registry.instancesOf package = [i]
              ∧ b.boundTo "host" package = some i
              ∧ b.boundTo "remote" package = some i) :=
  ⟨fun v => by simp,
    one_instance_per_shared_package (fun a b => a == b) (fun v => by simp) [] []⟩

end ModuleFederation
